import Mathlib

/-!
Verification of the fleet log-collection engine of `eks/mng/logs.go`
(aws-k8s-tester).  The Go code is shallowly embedded: strings are lists of
characters (`Str`), the remote session / filesystem / rate limiter / random
source are oracles packaged in an `Env` record, and the concurrent
orchestrator loop is modelled as explicit recursion over the list of events
arriving on the result channel.
-/

/-- Strings of the Go program are modelled as lists of characters. -/
abbrev Str := List Char

/-- Coerce a Lean string literal into the model's string type. -/
def str (s : String) : Str := s.toList

/-! ## Generic string helpers mirroring the Go standard library -/

/-- Helper for `goFields`: `cur` is the (reversed) token being built. -/
def goFieldsAux (cur : Str) : Str → List Str
  | [] => if cur = [] then [] else [cur.reverse]
  | c :: rest =>
    if c.isWhitespace then
      if cur = [] then goFieldsAux [] rest
      else cur.reverse :: goFieldsAux [] rest
    else goFieldsAux (c :: cur) rest

/-- Model of Go `strings.Fields`: split around runs of whitespace,
no empty fields are produced. -/
def goFields (s : Str) : List Str := goFieldsAux [] s

/-- Helper for `splitLines`. -/
def splitLinesAux (cur : Str) : Str → List Str
  | [] => [cur.reverse]
  | c :: rest =>
    if c = '\n' then cur.reverse :: splitLinesAux [] rest
    else splitLinesAux (c :: cur) rest

/-- Model of Go `strings.Split(s, "\n")`: empty pieces are kept. -/
def splitLines (s : Str) : List Str := splitLinesAux [] s

/-- Helper for `replaceAll`: structural recursion on a fuel bound that
dominates the scanned string's length, so the definition evaluates by
kernel reduction.  A matched occurrence consumes `pat.length` characters
(one explicit head plus `pat.length - 1` dropped). -/
def replaceAllAux (pat rep : Str) : Nat → Str → Str
  | _, [] => []
  | 0, s => s
  | fuel + 1, c :: rest =>
    if pat ≠ [] ∧ pat.isPrefixOf (c :: rest) then
      rep ++ replaceAllAux pat rep fuel (rest.drop (pat.length - 1))
    else
      c :: replaceAllAux pat rep fuel rest

/-- Model of Go `strings.ReplaceAll` (non-overlapping, left to right). -/
def replaceAll (pat rep : Str) (s : Str) : Str :=
  replaceAllAux pat rep s.length s

/-- The character class kept by the Go regexp `[^a-zA-Z0-9]+` replacement
(only letters and digits survive). -/
def isAlnumGo (c : Char) : Bool :=
  ('a' ≤ c && c ≤ 'z') || ('A' ≤ c && c ≤ 'Z') || ('0' ≤ c && c ≤ '9')

/-- Characters that do not stop Go `filepath.Ext`'s backwards scan. -/
def notStop (c : Char) : Bool := !(c == '.') && !(c == '/')

/-- Model of Go `filepath.Ext`: scan backwards from the end; stop at a path
separator; return the suffix starting at the last dot, if any. -/
def fpExt (cs : Str) : Str :=
  match cs.reverse.dropWhile notStop with
  | [] => []
  | x :: _ =>
    if x = '.' then '.' :: (cs.reverse.takeWhile notStop).reverse else []

/-- Model of Go `filepath.Base` (no Windows volume handling). -/
def baseName (s : Str) : Str :=
  if s = [] then ['.']
  else
    let t := s.reverse.dropWhile (fun c => c == '/')
    if t = [] then ['/']
    else (t.takeWhile (fun c => !(c == '/'))).reverse

/-- Model of `filepath.Join` for a nonempty directory and file name. -/
def joinPath (dir nm : Str) : Str := dir ++ '/' :: nm

/-! ## `randString` and `shorten` (logs.go lines 487-509) -/

/-- The alphabet `ll` of `randString`. -/
def llChars : Str := str "0123456789abcdefghijklmnopqrstuvwxyz"

/-- Model of `randString`: each character is drawn by `rand.Intn(len(ll))`;
the sequence of random draws is made explicit as a list of seeds, reduced
modulo the alphabet size exactly as `Intn` bounds its result. -/
def randString (seeds : List Nat) : Str :=
  seeds.map (fun n => llChars.getD (n % 36) '0')

/-- Model of `shorten`: a name of fewer than 240 characters is returned
unchanged; otherwise the first 230 characters, the 5-character random
suffix and the original extension are concatenated. -/
def shorten (suffix : Str) (name : Str) : Str :=
  if name.length < 240 then name
  else name.take 230 ++ suffix ++ fpExt name

/-! ## Per-instance naming prefix (logs.go lines 68-76) -/

/-- Sanitization of the public DNS name: strip every character outside
`[a-zA-Z0-9]`, lowercase, remove the literal substrings `ec2`,
`compute.amazonaws` and `amazonaws`, and clip to at most 7 characters. -/
def sanitizeDNS (dns : Str) : Str :=
  let s := (dns.filter isAlnumGo).map Char.toLower
  let s := replaceAll (str "ec2") [] s
  let s := replaceAll (str "compute.amazonaws") [] s
  let s := replaceAll (str "amazonaws") [] s
  if 7 < s.length then s.take 7 else s

/-- The per-instance file-name prefix `instID + "-" + dns + "-"`. -/
def mkPfx (instID dns : Str) : Str :=
  instID ++ '-' :: (sanitizeDNS dns ++ ['-'])

/-! ## Dynamic command discovery (logs.go lines 196-212 and 337-346) -/

/-- One line of `systemctl list-units` output: kept exactly when it has at
least 5 whitespace-separated fields, the first field is nonempty, the second
is not `not-found` and the third is not `inactive`; the synthesized entry is
the journalctl command for the unit together with its destination name. -/
def svcLineEntry (line : Str) : Option (Str × Str) :=
  let fields := goFields line
  if fields.length = 0 ∨ fields.getD 0 [] = [] ∨ fields.length < 5 then none
  else if fields.getD 1 [] = str "not-found" then none
  else if fields.getD 2 [] = str "inactive" then none
  else
    some (str "sudo journalctl --no-pager --output=cat -u " ++ fields.getD 0 [],
          fields.getD 0 [] ++ str ".out.log")

/-- Keep the first entry for every distinct command key, mirroring the fact
that the Go code accumulates entries into a map keyed by the command (the
value for a repeated key is identical, so only multiplicity is at stake). -/
def dedupeKeysAux : Nat → List (Str × Str) → List (Str × Str)
  | _, [] => []
  | 0, l => l
  | fuel + 1, (k, v) :: rest =>
    (k, v) :: dedupeKeysAux fuel (rest.filter (fun p => !(p.1 == k)))

/-- Entry point of the key deduplication; the fuel bound dominates the
list's length, so the filter-shortened recursion always completes. -/
def dedupeKeys (l : List (Str × Str)) : List (Str × Str) :=
  dedupeKeysAux l.length l

/-- Parse the service-enumeration output into discovered journal commands. -/
def parseSvcUnits (out : Str) : List (Str × Str) :=
  dedupeKeys ((splitLines out).filterMap svcLineEntry)

/-- One line of the `/var/log` file enumeration: empty lines are skipped,
otherwise a `sudo cat` command and the path's base name are synthesized. -/
def varLogEntry (line : Str) : Option (Str × Str) :=
  if line = [] then none
  else some (str "sudo cat " ++ line, baseName line)

/-- Parse the file-enumeration output into discovered cat commands. -/
def parseVarLog (out : Str) : List (Str × Str) :=
  dedupeKeys ((splitLines out).filterMap varLogEntry)

/-! ## Rate-limiter gate events and the oracle environment -/

/-- Observable events of one collector: a non-blocking `Allow` probe with
its result, a blocking `Wait`, and the issuance of one remote command. -/
inductive Ev
  | allow (ok : Bool)
  | wait
  | run (cmd : Str)
deriving DecidableEq

/-- The gate placed before every remote command (and before the SSH dial):
probe `Allow`; when it returns false, call the blocking `Wait`. -/
def gateEvents (b : Bool) : List Ev :=
  if b then [Ev.allow true] else [Ev.allow false, Ev.wait]

/-- Oracle environment of one per-instance collector: outcomes of the
external collaborators (cancellation signal, SSH setup and connect, remote
command execution, file creation and writing, the rate limiter's `Allow`
answers indexed by gate number, and the random seeds consumed when a file
name must be shortened). -/
structure Env where
  stopped : Bool
  newErr : Option Str
  connectErr : Option Str
  runOut : Str → Except Str Str
  createErr : Str → Option Str
  writeErr : Str → Option Str
  allowAt : Nat → Bool
  seedsFor : Str → List Nat

/-- Error message of a failed remote command (logs.go fmt.Errorf). -/
def runErrMsg (cmd instID e : Str) : Str :=
  str "failed to run command " ++ cmd ++ str " for " ++ instID ++
    str " (error " ++ e ++ str ")"

/-- Error message of a failed file creation. -/
def createErrMsg (fpath instID e : Str) : Str :=
  str "failed to create a file " ++ fpath ++ str " for " ++ instID ++
    str " (error " ++ e ++ str ")"

/-- Error message of a failed file write. -/
def writeErrMsg (fpath instID e : Str) : Str :=
  str "failed to write to a file " ++ fpath ++ str " for " ++ instID ++
    str " (error " ++ e ++ str ")"

/-- One result record sent on the result channel (`instanceLogs`).
Defaults mirror Go zero values: a field left out of a struct literal in the
source is the empty string / nil slice / nil error. -/
structure InstanceLogs where
  mngName : Str := []
  instanceID : Str := []
  paths : List Str := []
  err : Option Str := none
deriving DecidableEq

/-- Outcome of one uniform command batch: the next gate index, the
accumulated file paths and the trace of events it contributed, or the first
failure's message with the trace up to it. -/
inductive BatchRes
  | ok (k : Nat) (paths : List Str) (trace : List Ev)
  | fail (e : Str) (trace : List Ev)

/-- Uniform execution of a (command, destination-name) batch (the static
loop of logs.go lines 120-170 and both dynamic loops): gate, run the
command, pass the prefixed destination name through `shorten`, create and
write the file, accumulate the path; any failure aborts the batch. -/
def fetchFiles (env : Env) (logsDir pfx instID : Str) :
    List (Str × Str) → Nat → List Str → BatchRes
  | [], _k, paths => .ok _k paths []
  | (cmd, fname) :: rest, k, paths =>
    let seg := gateEvents (env.allowAt k) ++ [Ev.run cmd]
    match env.runOut cmd with
    | .error e => .fail (runErrMsg cmd instID e) seg
    | .ok _out =>
      let nm := pfx ++ fname
      let fpath := joinPath logsDir (shorten (randString (env.seedsFor nm)) nm)
      match env.createErr fpath with
      | some e => .fail (createErrMsg fpath instID e) seg
      | none =>
        match env.writeErr fpath with
        | some e => .fail (writeErrMsg fpath instID e) seg
        | none =>
          match fetchFiles env logsDir pfx instID rest (k + 1) (paths ++ [fpath]) with
          | .ok k2 p2 tr2 => .ok k2 p2 (seg ++ tr2)
          | .fail e tr2 => .fail e (seg ++ tr2)

/-- The fixed service-enumeration command (logs.go line 178). -/
def listCmd : Str :=
  str "sudo systemctl list-units -t service --no-pager --no-legend --all"

/-- The fixed ENI diagnostic probe (logs.go line 272). -/
def eniCmd : Str := str "curl http://localhost:61679/v1/enis"

/-- The fixed log-file enumeration command (logs.go line 323). -/
def findCmd : Str := str "sudo find /var/log ! -type d"

/-- The static command-to-file map of logs.go lines 21-30, linearized. -/
def logCmds : List (Str × Str) :=
  [(str "sudo journalctl --no-pager --output=short-precise -k",
    str "kernel.out.log"),
   (str "sudo journalctl --no-pager --output=short-precise",
    str "journal.out.log"),
   (str "sudo systemctl list-units -t service --no-pager --no-legend --all",
    str "list-units-systemctl.out.log")]

/-- Outcome of one collector goroutine: at most one result record (none
exactly when the cancellation signal was observed before any work) and the
trace of gate/command events it generated. -/
structure CollectOut where
  res : Option InstanceLogs
  trace : List Ev
deriving DecidableEq

/-- The per-instance collector goroutine (logs.go lines 78-400): check the
cancellation signal, gate, dial SSH, connect, run the static batch, the
service-discovery stage and its batch, the ENI probe, the `/var/log`
enumeration and its batch, and emit exactly one result record. -/
def collectInstance (env : Env) (name instID pfx logsDir : Str)
    (cmds : List (Str × Str)) : CollectOut :=
  if env.stopped then ⟨none, []⟩ else
  let tr0 := gateEvents (env.allowAt 0)
  match env.newErr with
  | some e => ⟨some { mngName := name, err := some e }, tr0⟩
  | none =>
  match env.connectErr with
  | some e => ⟨some { mngName := name, err := some e }, tr0⟩
  | none =>
  match fetchFiles env logsDir pfx instID cmds 1 [] with
  | .fail e tr =>
    ⟨some { mngName := name, instanceID := instID, err := some e }, tr0 ++ tr⟩
  | .ok k paths tr =>
  let tr1 := tr0 ++ tr ++ gateEvents (env.allowAt k) ++ [Ev.run listCmd]
  match env.runOut listCmd with
  | .error e =>
    ⟨some { mngName := name, instanceID := instID,
            err := some (runErrMsg listCmd instID e) }, tr1⟩
  | .ok out =>
  match fetchFiles env logsDir pfx instID (parseSvcUnits out) (k + 1) paths with
  | .fail e tr =>
    ⟨some { mngName := name, instanceID := instID, err := some e }, tr1 ++ tr⟩
  | .ok k2 paths2 tr2 =>
  let tr3 := tr1 ++ tr2 ++ gateEvents (env.allowAt k2) ++ [Ev.run eniCmd]
  match env.runOut eniCmd with
  | .error e =>
    ⟨some { mngName := name, instanceID := instID,
            err := some (runErrMsg eniCmd instID e) }, tr3⟩
  | .ok _ =>
  let eniName := pfx ++ str "v1-enis"
  let eniPath := joinPath logsDir (shorten (randString (env.seedsFor eniName)) eniName)
  match env.createErr eniPath with
  | some e =>
    ⟨some { mngName := name, instanceID := instID,
            err := some (createErrMsg eniPath instID e) }, tr3⟩
  | none =>
  match env.writeErr eniPath with
  | some e =>
    ⟨some { mngName := name, instanceID := instID,
            err := some (writeErrMsg eniPath instID e) }, tr3⟩
  | none =>
  let paths3 := paths2 ++ [eniPath]
  let tr4 := tr3 ++ gateEvents (env.allowAt (k2 + 1)) ++ [Ev.run findCmd]
  match env.runOut findCmd with
  | .error e =>
    ⟨some { mngName := name, instanceID := instID,
            err := some (runErrMsg findCmd instID e) }, tr4⟩
  | .ok fout =>
  match fetchFiles env logsDir pfx instID (parseVarLog fout) (k2 + 2) paths3 with
  | .fail e tr =>
    ⟨some { mngName := name, instanceID := instID, err := some e }, tr4 ++ tr⟩
  | .ok _ paths4 tr5 =>
    ⟨some { mngName := name, instanceID := instID, paths := paths4 }, tr4 ++ tr5⟩

/-! ## Fleet membership, Fleet Status and the state aggregator -/

/-- One fleet instance's network identity (`ec2config.Instance` fields the
engine reads). -/
structure FleetInstance where
  publicIP : Str
  publicDNSName : Str
deriving DecidableEq

/-- One managed node group's status entry: its instances and the logs map
("already collected" marker, instance ID to produced file paths). -/
structure NodeGroup where
  instances : List (Str × FleetInstance)
  logs : List (Str × List Str)
deriving DecidableEq

/-- Fleet Status: the group-name-to-node-group map
(`StatusManagedNodeGroups.Nodes`), as an association list. -/
abbrev NodesT := List (Str × NodeGroup)

/-- Association-list lookup (Go map read). -/
def lookupA : List (Str × α) → Str → Option α
  | [], _ => none
  | (k, v) :: rest, key => if k = key then some v else lookupA rest key

/-- Association-list overwrite of an existing key (Go map assignment). -/
def setKey (nodes : NodesT) (k : Str) (g : NodeGroup) : NodesT :=
  nodes.map (fun p => if p.1 = k then (k, g) else p)

/-- Total expected result count: the sum of instance counts over all
groups (`waits` in logs.go lines 61-66). -/
def totalInstances (nodes : NodesT) : Nat :=
  (nodes.map (fun p => p.2.instances.length)).sum

/-- Outcome of handling one drained record (logs.go lines 413-444): the
hard error if one was raised, the resulting Fleet Status, and whether the
handling performed a durable sync. -/
structure StepOut where
  err : Option Str
  nodes : NodesT
  synced : Bool
deriving DecidableEq

/-- The state-aggregator step for one drained record: an error record is
logged and skipped; a success record requires its group to be known and its
instance to be uncollected, in which case the file list is inserted and the
status synced; otherwise a hard error is raised and nothing is modified. -/
def aggregateStep (nodes : NodesT) (r : InstanceLogs) : StepOut :=
  match r.err with
  | some _ => ⟨none, nodes, false⟩
  | none =>
    match lookupA nodes r.mngName with
    | none =>
      ⟨some (str "EKS Managed Node Group name " ++ r.mngName ++ str " is unknown"),
       nodes, false⟩
    | some mv =>
      match lookupA mv.logs r.instanceID with
      | some _ =>
        ⟨some (str "EKS Managed Node Group name " ++ r.mngName ++
               str " for instance " ++ r.instanceID ++ str " logs are redundant"),
         nodes, false⟩
      | none =>
        ⟨none,
         setKey nodes r.mngName { mv with logs := mv.logs ++ [(r.instanceID, r.paths)] },
         true⟩

/-- One arrival at the orchestrator's select: either a record from the
result channel or the cancellation signal. -/
inductive Recv
  | msg (r : InstanceLogs)
  | stop
deriving DecidableEq

/-- Outcome of the drain loop: the value returned by the run (`err`), the
final Fleet Status, how many records were consumed from the channel, how
many durable syncs were performed, whether the loop exited on a hard
invariant error, and whether it would have blocked forever on an empty
channel (impossible in a real run and excluded by hypotheses). -/
structure DrainOut where
  err : Option Str
  nodes : NodesT
  consumed : Nat
  syncs : Nat
  hardErr : Bool
  blocked : Bool
deriving DecidableEq

/-- The orchestrator's drain loop (logs.go lines 404-451): receive `waits`
records, folding each through `aggregateStep`; a cancellation observation
returns the sync result at once; a hard error returns at once; normal
completion returns the final sync result.  `syncRes` is the value the
external `Sync()` collaborator returns. -/
def drain (syncRes : Option Str) (nodes : NodesT) :
    Nat → List Recv → DrainOut
  | 0, _ => ⟨syncRes, nodes, 0, 1, false, false⟩
  | _ + 1, [] => ⟨none, nodes, 0, 0, false, true⟩
  | _ + 1, .stop :: _ => ⟨syncRes, nodes, 0, 1, false, false⟩
  | w + 1, .msg r :: evs =>
    let s := aggregateStep nodes r
    match s.err with
    | some e => ⟨some e, s.nodes, 1, if s.synced then 1 else 0, true, false⟩
    | none =>
      let out := drain syncRes s.nodes w evs
      ⟨out.err, out.nodes, out.consumed + 1,
       out.syncs + (if s.synced then 1 else 0), out.hardErr, out.blocked⟩

/-- The drain phase as `fetchLogs` invokes it: the expected count is the
sum of instance counts across all groups. -/
def runDrain (syncRes : Option Str) (nodes : NodesT) (evs : List Recv) : DrainOut :=
  drain syncRes nodes (totalInstances nodes) evs

/-! ## Top-level `FetchLogs` entry point (logs.go lines 32-43) -/

/-- Externally visible actions of the `FetchLogs` entry point. -/
inductive TopEv
  | mkdir (dir : Str) (mode : Nat)
  | lock
  | runCollection
  | unlock
deriving DecidableEq

/-- Outcome of the `FetchLogs` entry point: its returned error and the
ordered actions it performed. -/
structure TopOut where
  err : Option Str
  trace : List TopEv
deriving DecidableEq

/-- Model of `FetchLogs`: refuse immediately when the managed-node-groups
add-on is disabled; otherwise create the log directory with mode 0700
(448), take the coarse collection lock, run the whole collection
(`fetchLogs`), and release the lock on return. -/
def fetchLogsTop (enable : Bool) (logDir : Str)
    (mkdirErr : Option Str) (runRes : Option Str) : TopOut :=
  if !enable then
    ⟨some (str "AddOnManagedNodeGroups.Enable false; no managed node group to fetch logs for"),
     []⟩
  else
    match mkdirErr with
    | some e => ⟨some e, [TopEv.mkdir logDir 448]⟩
    | none =>
      ⟨runRes, [TopEv.mkdir logDir 448, TopEv.lock, TopEv.runCollection, TopEv.unlock]⟩

/-! ## Well-gated traces (claim C9's predicate) -/

/-- Check that every `run` event is immediately preceded by a successful
`allow` probe, or by a `wait` that itself immediately follows a failed
`allow` probe; `p2`/`p1` are the two events preceding the list's head. -/
def gatedFrom (p2 p1 : Option Ev) : List Ev → Bool
  | [] => true
  | e :: rest =>
    (match e with
     | .run _ =>
       (p1 = some (Ev.allow true)) ∨ (p1 = some Ev.wait ∧ p2 = some (Ev.allow false))
     | _ => True) &&
    gatedFrom p1 (some e) rest

/-- A full trace is well gated when checking from the start. -/
def wellGated (tr : List Ev) : Bool := gatedFrom none none tr

/-! ## Trace grammar and concrete fixtures used by witnesses -/

/-- The trace component of a batch outcome. -/
def BatchRes.trace : BatchRes → List Ev
  | .ok _ _ tr => tr
  | .fail _ tr => tr

/-- Traces generated by the collector: a sequence of gate segments, each
optionally followed by exactly one command issuance. -/
inductive GatedTrace : List Ev → Prop
  | nil : GatedTrace []
  | gateOnly (b : Bool) (rest : List Ev) :
      GatedTrace rest → GatedTrace (gateEvents b ++ rest)
  | gateRun (b : Bool) (c : Str) (rest : List Ev) :
      GatedTrace rest → GatedTrace (gateEvents b ++ Ev.run c :: rest)

/-- A one-group Fleet Status with no instances and no collected logs. -/
def nodes1 : NodesT := [(str "g", { instances := [], logs := [] })]

/-- An environment in which every external collaborator succeeds and every
remote command returns empty output. -/
def envOK : Env :=
  { stopped := false, newErr := none, connectErr := none,
    runOut := fun _ => .ok [], createErr := fun _ => none,
    writeErr := fun _ => none, allowAt := fun _ => true,
    seedsFor := fun _ => [0, 0, 0, 0, 0] }

/-- An environment in which the SSH connect step fails. -/
def envConnFail : Env := { envOK with connectErr := some (str "boom") }

/-- A one-group Fleet Status with one expected instance and nothing
collected yet. -/
def nodes2 : NodesT :=
  [(str "g", { instances := [(str "i-1", ⟨[], []⟩)], logs := [] })]

/-- A one-group Fleet Status with two expected instances, one of which is
already marked collected from an earlier run. -/
def nodesDup : NodesT :=
  [(str "g", { instances := [(str "i-1", ⟨[], []⟩), (str "i-2", ⟨[], []⟩)],
               logs := [(str "i-1", [])] })]

/-- Two success records, the first a duplicate of the already-collected
instance. -/
def evsDup : List Recv :=
  [Recv.msg { mngName := str "g", instanceID := str "i-1" },
   Recv.msg { mngName := str "g", instanceID := str "i-2" }]

/-- An environment in which every remote command fails. -/
def envCmdFail : Env := { envOK with runOut := fun _ => .error (str "cmderr") }

/-! ## Helper lemmas -/

/-- `strings.Fields` never produces an empty field. -/
lemma goFieldsAux_no_nil : ∀ (s cur : Str), ([] : Str) ∉ goFieldsAux cur s := by
  intro s
  induction s with
  | nil =>
    intro cur
    by_cases h : cur = [] <;>
      simp [goFieldsAux, h, Ne.symm, List.reverse_eq_nil_iff]
  | cons c rest ih =>
    intro cur
    by_cases hw : c.isWhitespace <;> by_cases h : cur = [] <;>
      simp [goFieldsAux, hw, h, ih, Ne.symm, List.reverse_eq_nil_iff]

/-- An in-range `getD` is a member of the list. -/
lemma getD_mem {α : Type} : ∀ (l : List α) (n : Nat) (d : α),
    n < l.length → l.getD n d ∈ l := by
  intro l
  induction l with
  | nil => simp
  | cons a t ih =>
    intro n d h
    cases n with
    | zero => simp
    | succ m =>
      simp only [List.getD_cons_succ, List.mem_cons]
      exact Or.inr (ih m d (by simpa using h))

/-- Claim C2: for every line of the service-enumeration output, the
service-discovery filter includes the line's first field (the unit name)
exactly when the line has at least 5 whitespace-separated fields, its
second field is not `not-found`, and its third field is not `inactive`;
for each included unit it synthesizes the journal command
`sudo journalctl --no-pager --output=cat -u ` followed by the unit name,
with destination file name the unit name followed by `.out.log`. -/
theorem claim_C2 (line : Str) :
    svcLineEntry line =
      if 5 ≤ (goFields line).length ∧
         (goFields line).getD 1 [] ≠ str "not-found" ∧
         (goFields line).getD 2 [] ≠ str "inactive" then
        some (str "sudo journalctl --no-pager --output=cat -u " ++ (goFields line).getD 0 [],
              (goFields line).getD 0 [] ++ str ".out.log")
      else none := by
  unfold svcLineEntry
  by_cases h5 : 5 ≤ (goFields line).length
  · have h0 : (goFields line).getD 0 [] ≠ [] := by
      intro hc
      have hm := getD_mem (goFields line) 0 [] (by omega)
      rw [hc] at hm
      exact goFieldsAux_no_nil line [] hm
    have hg : ¬ ((goFields line).length = 0 ∨ (goFields line).getD 0 [] = [] ∨
        (goFields line).length < 5) := by
      push_neg
      exact ⟨by omega, h0, by omega⟩
    rw [if_neg hg]
    by_cases h1 : (goFields line).getD 1 [] = str "not-found"
    · rw [if_pos h1, if_neg (fun hc => hc.2.1 h1)]
    · rw [if_neg h1]
      by_cases h2 : (goFields line).getD 2 [] = str "inactive"
      · rw [if_pos h2, if_neg (fun hc => hc.2.2 h2)]
      · rw [if_neg h2, if_pos ⟨h5, h1, h2⟩]
  · have hg : (goFields line).length = 0 ∨ (goFields line).getD 0 [] = [] ∨
        (goFields line).length < 5 := Or.inr (Or.inr (by omega))
    rw [if_pos hg, if_neg (by intro hc; exact h5 hc.1)]

/-- The head of a nonempty `dropWhile` result fails the predicate. -/
lemma dropWhile_head_false {α : Type} (p : α → Bool) :
    ∀ (l : List α) (x : α) (xs : List α), l.dropWhile p = x :: xs → p x = false := by
  intro l
  induction l with
  | nil => simp [List.dropWhile]
  | cons a t ih =>
    intro x xs h
    rw [List.dropWhile_cons] at h
    by_cases ha : p a
    · rw [if_pos ha] at h
      exact ih x xs h
    · rw [if_neg ha] at h
      cases h
      exact Bool.not_eq_true _ |>.mp ha

/-- A string every character of which is neither a dot nor a separator has
no extension. -/
lemma fpExt_eq_nil {l : Str} (h : ∀ c ∈ l, notStop c = true) : fpExt l = [] := by
  unfold fpExt
  have hd : l.reverse.dropWhile notStop = [] := by
    rw [List.dropWhile_eq_nil_iff]
    intro c hc
    exact h c (List.mem_reverse.mp hc)
  rw [hd]

/-- When `fpExt` is empty and the string has no separator, every character
satisfies `notStop`. -/
lemma all_notStop_of_fpExt_nil {l : Str} (hext : fpExt l = [])
    (hsl : '/' ∉ l) : ∀ c ∈ l, notStop c = true := by
  intro c hc
  by_contra hns
  unfold fpExt at hext
  rcases hdw : l.reverse.dropWhile notStop with _ | ⟨x, xs⟩
  · rw [List.dropWhile_eq_nil_iff] at hdw
    exact hns (hdw c (List.mem_reverse.mpr hc))
  · have hx : notStop x = false := dropWhile_head_false notStop _ x xs hdw
    have hxmem : x ∈ l := by
      have : x ∈ l.reverse.dropWhile notStop := by rw [hdw]; exact List.mem_cons_self x xs
      exact List.mem_reverse.mp (List.dropWhile_subset notStop this)
    have : x = '.' ∨ x = '/' := by
      unfold notStop at hx
      by_cases h1 : x = '.'
      · exact Or.inl h1
      · by_cases h2 : x = '/'
        · exact Or.inr h2
        · simp [h1, h2] at hx
    rcases this with h1 | h2
    · rw [hdw] at hext
      simp [h1] at hext
    · exact hsl (h2 ▸ hxmem)

/-- Appending `'.' ::` a stop-free tail to anything yields exactly that
extension. -/
lemma fpExt_concat_dot (pre T : Str) (hT : ∀ c ∈ T, notStop c = true) :
    fpExt (pre ++ ('.' :: T.reverse)) = '.' :: T.reverse := by
  unfold fpExt
  have h1 : (pre ++ ('.' :: T.reverse)).reverse = T ++ '.' :: pre.reverse := by
    simp
  rw [h1, List.dropWhile_append_of_pos hT,
      List.dropWhile_cons_of_neg (by decide),
      List.takeWhile_append_of_pos hT,
      List.takeWhile_cons_of_neg (by decide)]
  simp

/-- For a separator-free name and a stop-free random suffix, `shorten`
preserves the `filepath.Ext` extension. -/
lemma fpExt_shorten {suffix name : Str}
    (hsuf : ∀ c ∈ suffix, notStop c = true) (hname : '/' ∉ name) :
    fpExt (shorten suffix name) = fpExt name := by
  unfold shorten
  split
  · rfl
  · rcases hdw : name.reverse.dropWhile notStop with _ | ⟨x, xs⟩
    · have hall : ∀ c ∈ name, notStop c = true := by
        intro c hc
        exact List.dropWhile_eq_nil_iff.mp hdw c (List.mem_reverse.mpr hc)
      have hextn : fpExt name = [] := fpExt_eq_nil hall
      rw [hextn, List.append_nil]
      apply fpExt_eq_nil
      intro c hc
      rcases List.mem_append.mp hc with h | h
      · exact hall c (List.take_subset _ _ h)
      · exact hsuf c h
    · have hx : notStop x = false := dropWhile_head_false notStop _ x xs hdw
      have hxmem : x ∈ name := by
        have hmem : x ∈ name.reverse.dropWhile notStop := by
          rw [hdw]; exact List.mem_cons_self x xs
        exact List.mem_reverse.mp (List.dropWhile_subset notStop hmem)
      have hxd : x = '.' := by
        by_contra hne
        have h2 : x = '/' := by
          unfold notStop at hx
          by_cases h2 : x = '/'
          · exact h2
          · simp [hne, h2] at hx
        exact hname (h2 ▸ hxmem)
      subst hxd
      have hextn : fpExt name = '.' :: (name.reverse.takeWhile notStop).reverse := by
        unfold fpExt
        rw [hdw]
        simp
      have hTall : ∀ c ∈ name.reverse.takeWhile notStop, notStop c = true :=
        fun c hc => List.mem_takeWhile_imp hc
      rw [hextn]
      exact fpExt_concat_dot _ _ hTall

/-- Every character of a `randString` output is a digit or lowercase
letter, hence neither a dot nor a path separator. -/
lemma randString_notStop (seeds : List Nat) :
    ∀ c ∈ randString seeds, notStop c = true := by
  intro c hc
  simp only [randString, List.mem_map] at hc
  obtain ⟨n, _, rfl⟩ := hc
  have hlt : n % 36 < llChars.length := Nat.mod_lt n (by decide)
  have hmem : llChars.getD (n % 36) '0' ∈ llChars := getD_mem llChars (n % 36) '0' hlt
  have hall : ∀ c ∈ llChars, notStop c = true := by decide
  exact hall _ hmem

/-- `randString` draws exactly one character per seed. -/
lemma randString_length (seeds : List Nat) :
    (randString seeds).length = seeds.length := by
  simp [randString]

/-- Claim C3 (amended): a candidate file name of length strictly less than
240 characters is returned unchanged by the filename-safety transform; a
name of 240 characters or more is shortened to its first 230 characters
followed by the 5-character random alphanumeric suffix followed by the
original name's extension, and (for separator-free names) the output always
preserves the original extension. -/
theorem claim_C3 (seeds : List Nat) (name : Str)
    (h5 : seeds.length = 5) (hs : '/' ∉ name) :
    (name.length < 240 → shorten (randString seeds) name = name) ∧
    (240 ≤ name.length →
      shorten (randString seeds) name =
        name.take 230 ++ randString seeds ++ fpExt name ∧
      (randString seeds).length = 5) ∧
    fpExt (shorten (randString seeds) name) = fpExt name := by
  refine ⟨fun h => ?_, fun h => ⟨?_, ?_⟩, ?_⟩
  · simp [shorten, h]
  · simp [shorten, Nat.not_lt.mpr h]
  · rw [randString_length, h5]
  · exact fpExt_shorten (randString_notStop seeds) hs

/-- Claim C3, counterexample to the claim as stated: a name of exactly 240
characters does not exceed the 240-character threshold, yet the transform
does not return it unchanged (the code shortens whenever the length is not
strictly less than 240). -/
theorem claim_C3_counterexample :
    (List.replicate 240 'a' : Str).length ≤ 240 ∧
    shorten (randString [0, 0, 0, 0, 0]) (List.replicate 240 'a') ≠
      List.replicate 240 'a' := by
  have hlen : (List.replicate 240 'a' : Str).length = 240 := List.length_replicate 240 'a'
  refine ⟨by rw [hlen], fun h => ?_⟩
  have hfp : fpExt (List.replicate 240 'a') = [] :=
    fpExt_eq_nil (fun c hc => by rw [List.eq_of_mem_replicate hc]; decide)
  have hsh : shorten (randString [0, 0, 0, 0, 0]) (List.replicate 240 'a') =
      (List.replicate 240 'a' : Str).take 230 ++ randString [0, 0, 0, 0, 0] := by
    unfold shorten
    rw [if_neg (by rw [hlen]; omega), hfp, List.append_nil]
  rw [hsh] at h
  have hL := congrArg List.length h
  rw [List.length_append, List.length_take, hlen, randString_length] at hL
  simp at hL

/-- Claim C3, witness: the amended theorem applied at a concrete short name
and a concrete 5-seed list. -/
theorem claim_C3_witness :
    ((str "ab.log").length < 240 → shorten (randString [1, 2, 3, 4, 5]) (str "ab.log") = str "ab.log") ∧
    (240 ≤ (str "ab.log").length →
      shorten (randString [1, 2, 3, 4, 5]) (str "ab.log") =
        (str "ab.log").take 230 ++ randString [1, 2, 3, 4, 5] ++ fpExt (str "ab.log") ∧
      (randString [1, 2, 3, 4, 5]).length = 5) ∧
    fpExt (shorten (randString [1, 2, 3, 4, 5]) (str "ab.log")) = fpExt (str "ab.log") :=
  claim_C3 [1, 2, 3, 4, 5] (str "ab.log") (by decide) (by decide)

/-- Claim C1: for every drained success result record, the state aggregator
raises a hard error if and only if the record's group name is not present
in Fleet Status or the record's instance ID is already present under that
group; in either failure case Fleet Status is left completely unchanged
(nothing is overwritten, nothing is inserted). -/
theorem claim_C1 (nodes : NodesT) (r : InstanceLogs) (h : r.err = none) :
    ((aggregateStep nodes r).err.isSome ↔
      lookupA nodes r.mngName = none ∨
      ∃ mv, lookupA nodes r.mngName = some mv ∧
        (lookupA mv.logs r.instanceID).isSome) ∧
    ((aggregateStep nodes r).err.isSome → (aggregateStep nodes r).nodes = nodes) := by
  unfold aggregateStep
  rw [h]
  rcases hl : lookupA nodes r.mngName with _ | mv
  · simp
  · rcases hl2 : lookupA mv.logs r.instanceID with _ | v
    · simp [hl2]
    · simp [hl2]

/-- Claim C1, witness: a success record for an unknown group raises the
hard error and leaves the concrete Fleet Status untouched. -/
theorem claim_C1_witness :
    ({ mngName := str "other", instanceID := str "i-1" } : InstanceLogs).err = none ∧
    (((aggregateStep nodes1
          { mngName := str "other", instanceID := str "i-1" }).err.isSome ↔
        lookupA nodes1 (str "other") = none ∨
        ∃ mv, lookupA nodes1 (str "other") = some mv ∧
          (lookupA mv.logs (str "i-1")).isSome) ∧
      ((aggregateStep nodes1
          { mngName := str "other", instanceID := str "i-1" }).err.isSome →
        (aggregateStep nodes1
          { mngName := str "other", instanceID := str "i-1" }).nodes = nodes1)) :=
  ⟨rfl, claim_C1 nodes1 { mngName := str "other", instanceID := str "i-1" } rfl⟩

/-- Claim C5: a drained record carrying an error leaves Fleet Status
unchanged, performs no sync, and the loop simply continues with the
remaining records: the error record contributes nothing to the run's
returned value. -/
theorem claim_C5 (syncRes : Option Str) (nodes : NodesT) (r : InstanceLogs)
    (h : r.err.isSome = true) (w : Nat) (evs : List Recv) :
    aggregateStep nodes r = ⟨none, nodes, false⟩ ∧
    drain syncRes nodes (w + 1) (Recv.msg r :: evs) =
      { err := (drain syncRes nodes w evs).err,
        nodes := (drain syncRes nodes w evs).nodes,
        consumed := (drain syncRes nodes w evs).consumed + 1,
        syncs := (drain syncRes nodes w evs).syncs,
        hardErr := (drain syncRes nodes w evs).hardErr,
        blocked := (drain syncRes nodes w evs).blocked } := by
  obtain ⟨e, he⟩ := Option.isSome_iff_exists.mp h
  have hstep : aggregateStep nodes r = ⟨none, nodes, false⟩ := by
    unfold aggregateStep
    rw [he]
  refine ⟨hstep, ?_⟩
  conv_lhs => rw [drain]
  rw [hstep]
  simp

/-- Claim C5, witness: the theorem applied to a concrete error record and a
concrete one-group Fleet Status. -/
theorem claim_C5_witness :
    ({ mngName := str "g", instanceID := str "i-1",
       err := some (str "boom") } : InstanceLogs).err.isSome = true ∧
    aggregateStep nodes1
      { mngName := str "g", instanceID := str "i-1", err := some (str "boom") } =
      ⟨none, nodes1, false⟩ :=
  ⟨rfl,
   (claim_C5 none nodes1
     { mngName := str "g", instanceID := str "i-1", err := some (str "boom") }
     rfl 0 []).1⟩

/-- Drain-loop induction: when enough events are available, the observed
events are all records, and no hard invariant error fires, the loop
consumes exactly `w` records and returns the final sync result. -/
lemma drain_msgs (syncRes : Option Str) :
    ∀ (w : Nat) (nodes : NodesT) (evs : List Recv),
      w ≤ evs.length →
      (∀ e ∈ evs.take w, ∃ r, e = Recv.msg r) →
      (drain syncRes nodes w evs).hardErr = false →
      (drain syncRes nodes w evs).consumed = w ∧
      (drain syncRes nodes w evs).err = syncRes ∧
      (drain syncRes nodes w evs).blocked = false := by
  intro w
  induction w with
  | zero =>
    intro nodes evs _ _ _
    exact ⟨rfl, rfl, rfl⟩
  | succ n ih =>
    intro nodes evs hlen hrec hhard
    match evs with
    | [] => simp at hlen
    | Recv.stop :: evs' =>
      exfalso
      obtain ⟨r, hr⟩ := hrec Recv.stop (by simp [List.take_succ_cons])
      exact Recv.noConfusion hr
    | Recv.msg r :: evs' =>
      rw [drain] at hhard ⊢
      rcases hs : (aggregateStep nodes r).err with _ | e
      · rw [hs] at hhard
        simp only [] at hhard ⊢
        have hrest := ih (aggregateStep nodes r).nodes evs'
          (by simpa using hlen)
          (fun e he => hrec e (by simp [List.take_succ_cons, he]))
          hhard
        exact ⟨by rw [hrest.1], hrest.2.1, hrest.2.2⟩
      · rw [hs] at hhard
        simp at hhard

/-- Claim C4 (amended): in the absence of cancellation and of hard
invariant-violation errors, the drain loop consumes exactly the sum over
all groups of the number of instances in each group and returns the final
sync result; whenever the cancellation signal is observed while waiting on
the result channel, the loop returns the result of a Fleet Status sync at
once — a clean early return, not a cancellation error — keeping every
Fleet Status entry merged so far. -/
theorem claim_C4 (syncRes : Option Str) (nodes : NodesT) (evs : List Recv)
    (hlen : totalInstances nodes ≤ evs.length)
    (hrec : ∀ e ∈ evs.take (totalInstances nodes), ∃ r, e = Recv.msg r)
    (hhard : (runDrain syncRes nodes evs).hardErr = false) :
    ((runDrain syncRes nodes evs).consumed = totalInstances nodes ∧
     (runDrain syncRes nodes evs).err = syncRes ∧
     (runDrain syncRes nodes evs).blocked = false) ∧
    (∀ (cur : NodesT) (w : Nat) (rest : List Recv),
      drain syncRes cur (w + 1) (Recv.stop :: rest) =
        ⟨syncRes, cur, 0, 1, false, false⟩) := by
  refine ⟨?_, fun cur w rest => rfl⟩
  exact drain_msgs syncRes (totalInstances nodes) nodes evs hlen hrec hhard

/-- Claim C4, counterexample to the claim as stated: with no cancellation
at all and one result record per expected instance, a run whose first
record duplicates an already-collected instance makes the loop exit on the
hard error after consuming one record, not the expected-count two. -/
theorem claim_C4_counterexample :
    totalInstances nodesDup = 2 ∧
    evsDup.length = 2 ∧
    (evsDup.all fun e => match e with | Recv.msg _ => true | Recv.stop => false) = true ∧
    (runDrain none nodesDup evsDup).consumed ≠ totalInstances nodesDup := by
  refine ⟨rfl, rfl, rfl, ?_⟩
  decide

/-- Claim C4, witness: the amended theorem applied to a one-instance fleet
receiving exactly one success record. -/
theorem claim_C4_witness :
    ((runDrain none nodes2
        [Recv.msg { mngName := str "g", instanceID := str "i-1" }]).consumed =
      totalInstances nodes2 ∧
     (runDrain none nodes2
        [Recv.msg { mngName := str "g", instanceID := str "i-1" }]).err = none ∧
     (runDrain none nodes2
        [Recv.msg { mngName := str "g", instanceID := str "i-1" }]).blocked = false) ∧
    drain none nodes2 (0 + 1) (Recv.stop :: []) = ⟨none, nodes2, 0, 1, false, false⟩ :=
  ⟨(claim_C4 none nodes2 [Recv.msg { mngName := str "g", instanceID := str "i-1" }]
      (by decide)
      (by
        intro e he
        refine ⟨{ mngName := str "g", instanceID := str "i-1" }, ?_⟩
        simpa [totalInstances, nodes2] using he)
      (by decide)).1,
   (claim_C4 none nodes2 [Recv.msg { mngName := str "g", instanceID := str "i-1" }]
      (by decide)
      (by
        intro e he
        refine ⟨{ mngName := str "g", instanceID := str "i-1" }, ?_⟩
        simpa [totalInstances, nodes2] using he)
      (by decide)).2 nodes2 0 []⟩

/-- Claim C10: when the managed-node-groups add-on is disabled, the
top-level FetchLogs entry point returns an error immediately, performing no
action at all (no directory creation, no lock acquisition, no collection,
hence no Fleet Status change); when it is enabled, its first action is the
creation of the log directory with mode 0700 and, when that succeeds, the
coarse collection lock is taken before the collection run and released
only after it, the entry point returning the run's result. -/
theorem claim_C10 (enable : Bool) (logDir : Str) (mkdirErr runRes : Option Str) :
    (enable = false →
      (fetchLogsTop enable logDir mkdirErr runRes).err.isSome = true ∧
      (fetchLogsTop enable logDir mkdirErr runRes).trace = []) ∧
    (enable = true →
      (fetchLogsTop enable logDir mkdirErr runRes).trace.head? =
        some (TopEv.mkdir logDir 448)) ∧
    (enable = true → mkdirErr = none →
      fetchLogsTop enable logDir mkdirErr runRes =
        ⟨runRes, [TopEv.mkdir logDir 448, TopEv.lock,
                  TopEv.runCollection, TopEv.unlock]⟩) := by
  cases enable
  · exact ⟨fun _ => ⟨rfl, rfl⟩, fun h => Bool.noConfusion h, fun h => Bool.noConfusion h⟩
  · refine ⟨fun h => Bool.noConfusion h, fun _ => ?_, fun _ hm => ?_⟩
    · cases mkdirErr <;> rfl
    · rw [hm]
      rfl

/-- Claim C10, witness: the theorem evaluated for a disabled and an enabled
concrete configuration. -/
theorem claim_C10_witness :
    ((false = false →
      (fetchLogsTop false (str "/var/log/mng") none none).err.isSome = true ∧
      (fetchLogsTop false (str "/var/log/mng") none none).trace = []) ∧
     (false = true →
      (fetchLogsTop false (str "/var/log/mng") none none).trace.head? =
        some (TopEv.mkdir (str "/var/log/mng") 448)) ∧
     (false = true → (none : Option Str) = none →
      fetchLogsTop false (str "/var/log/mng") none none =
        ⟨none, [TopEv.mkdir (str "/var/log/mng") 448, TopEv.lock,
                TopEv.runCollection, TopEv.unlock]⟩)) ∧
    (true = true → (none : Option Str) = none →
      fetchLogsTop true (str "/var/log/mng") none none =
        ⟨none, [TopEv.mkdir (str "/var/log/mng") 448, TopEv.lock,
                TopEv.runCollection, TopEv.unlock]⟩) :=
  ⟨claim_C10 false (str "/var/log/mng") none none,
   (claim_C10 true (str "/var/log/mng") none none).2.2⟩


/-- Every path accumulated by a command batch either was already in the
accumulator or is the run-directory path of a `shorten`-processed,
prefix-carrying destination name. -/
lemma fetchFiles_ok_paths (env : Env) (logsDir pfx instID : Str) :
    ∀ (l : List (Str × Str)) (k : Nat) (acc : List Str)
      (k2 : Nat) (ps : List Str) (tr : List Ev),
      fetchFiles env logsDir pfx instID l k acc = .ok k2 ps tr →
      ∀ p ∈ ps, p ∈ acc ∨
        ∃ nm, p = joinPath logsDir (shorten (randString (env.seedsFor nm)) nm) ∧
          ∃ f, nm = pfx ++ f := by
  intro l
  induction l with
  | nil =>
    intro k acc k2 ps tr h p hp
    simp only [fetchFiles] at h
    cases h
    exact Or.inl hp
  | cons hd rest ih =>
    obtain ⟨cmd, fname⟩ := hd
    intro k acc k2 ps tr h p hp
    simp only [fetchFiles] at h
    rcases hcmd : env.runOut cmd with e | o
    · rw [hcmd] at h
      exact BatchRes.noConfusion h
    · rw [hcmd] at h
      simp only [] at h
      rcases hcr : env.createErr (joinPath logsDir
          (shorten (randString (env.seedsFor (pfx ++ fname))) (pfx ++ fname))) with _ | e
      · rw [hcr] at h
        simp only [] at h
        rcases hwr : env.writeErr (joinPath logsDir
            (shorten (randString (env.seedsFor (pfx ++ fname))) (pfx ++ fname))) with _ | e
        · rw [hwr] at h
          simp only [] at h
          rcases hrec : fetchFiles env logsDir pfx instID rest (k + 1)
              (acc ++ [joinPath logsDir
                (shorten (randString (env.seedsFor (pfx ++ fname))) (pfx ++ fname))])
              with ⟨k3, ps3, tr3⟩ | ⟨e3, tr3⟩
          · rw [hrec] at h
            simp only [] at h
            injection h with h1 h2 h3
            subst h2
            rcases ih (k + 1) _ k3 ps3 tr3 hrec p hp with hacc | hshape
            · rcases List.mem_append.mp hacc with h1 | h1
              · exact Or.inl h1
              · refine Or.inr ⟨pfx ++ fname, ?_, fname, rfl⟩
                simpa using h1
            · exact Or.inr hshape
          · rw [hrec] at h
            exact BatchRes.noConfusion h
        · rw [hwr] at h
          exact BatchRes.noConfusion h
      · rw [hcr] at h
        exact BatchRes.noConfusion h

/-- A gate-only segment may be prepended to any gated trace. -/
lemma gatedTrace_gate (b : Bool) (rest : List Ev) (h : GatedTrace rest) :
    GatedTrace (gateEvents b ++ rest) := GatedTrace.gateOnly b rest h

/-- A batch's trace, followed by any gated continuation, is gated. -/
lemma fetchFiles_gated (env : Env) (logsDir pfx instID : Str) :
    ∀ (l : List (Str × Str)) (k : Nat) (acc : List Str) (tail : List Ev),
      GatedTrace tail →
      GatedTrace ((fetchFiles env logsDir pfx instID l k acc).trace ++ tail) := by
  intro l
  induction l with
  | nil =>
    intro k acc tail htail
    simpa [fetchFiles, BatchRes.trace] using htail
  | cons hd rest ih =>
    obtain ⟨cmd, fname⟩ := hd
    intro k acc tail htail
    simp only [fetchFiles]
    rcases hcmd : env.runOut cmd with e | o
    · simp only [BatchRes.trace, List.append_assoc, List.singleton_append]
      exact GatedTrace.gateRun _ _ _ htail
    · simp only []
      rcases hcr : env.createErr (joinPath logsDir
          (shorten (randString (env.seedsFor (pfx ++ fname))) (pfx ++ fname))) with _ | e
      · simp only []
        rcases hwr : env.writeErr (joinPath logsDir
            (shorten (randString (env.seedsFor (pfx ++ fname))) (pfx ++ fname))) with _ | e
        · simp only []
          rcases hrec : fetchFiles env logsDir pfx instID rest (k + 1)
              (acc ++ [joinPath logsDir
                (shorten (randString (env.seedsFor (pfx ++ fname))) (pfx ++ fname))])
              with ⟨k3, ps3, tr3⟩ | ⟨e3, tr3⟩
          · simp only [BatchRes.trace, List.append_assoc, List.singleton_append]
            refine GatedTrace.gateRun _ _ _ ?_
            have := ih (k + 1)
              (acc ++ [joinPath logsDir
                (shorten (randString (env.seedsFor (pfx ++ fname))) (pfx ++ fname))])
              tail htail
            rw [hrec] at this
            simpa [BatchRes.trace] using this
          · simp only [BatchRes.trace, List.append_assoc, List.singleton_append]
            refine GatedTrace.gateRun _ _ _ ?_
            have := ih (k + 1)
              (acc ++ [joinPath logsDir
                (shorten (randString (env.seedsFor (pfx ++ fname))) (pfx ++ fname))])
              tail htail
            rw [hrec] at this
            simpa [BatchRes.trace] using this
        · simp only [BatchRes.trace, List.append_assoc, List.singleton_append]
          exact GatedTrace.gateRun _ _ _ htail
      · simp only [BatchRes.trace, List.append_assoc, List.singleton_append]
        exact GatedTrace.gateRun _ _ _ htail

/-- A prefix of at most 230 characters survives the filename-safety
transform: the shortened name still starts with it. -/
lemma shorten_keeps_pfx (suffix pfx f : Str) (h : pfx.length ≤ 230) :
    pfx <+: shorten suffix (pfx ++ f) := by
  unfold shorten
  split
  · exact ⟨f, rfl⟩
  · refine ⟨f.take (230 - pfx.length) ++ (suffix ++ fpExt (pfx ++ f)), ?_⟩
    rw [List.take_append_eq_append_take, List.take_of_length_le h, List.append_assoc,
      List.append_assoc]

/-- Traces of the gate grammar pass the two-event-window gating check from
any starting window. -/
lemma gatedTrace_check {tr : List Ev} (h : GatedTrace tr) :
    ∀ p2 p1, gatedFrom p2 p1 tr = true := by
  induction h with
  | nil => intro p2 p1; rfl
  | gateOnly b rest _ ih =>
    intro p2 p1
    cases b <;> simp [gateEvents, gatedFrom, ih]
  | gateRun b c rest _ ih =>
    intro p2 p1
    cases b <;> simp [gateEvents, gatedFrom, ih]

/-- Master case analysis of one collector run: (1) no record is produced
exactly when the cancellation signal was observed; (2) any produced record
carries the group name, carries no paths when it carries an error, carries
the instance ID except on session-setup/connect failure (where the ID is
empty and an error is carried), and every carried path lies in the run
directory under a `shorten`-processed name extending the instance prefix;
(3) the event trace is a sequence of gate segments, each run event directly
behind its gate. -/
lemma collect_spec (env : Env) (name instID pfx logsDir : Str)
    (cmds : List (Str × Str)) :
    ((collectInstance env name instID pfx logsDir cmds).res = none ↔
      env.stopped = true) ∧
    (∀ r, (collectInstance env name instID pfx logsDir cmds).res = some r →
      r.mngName = name ∧
      (r.err.isSome = true → r.paths = []) ∧
      (env.newErr = none → env.connectErr = none → r.instanceID = instID) ∧
      (¬(env.newErr = none ∧ env.connectErr = none) →
        r.instanceID = [] ∧ r.err.isSome = true) ∧
      (∀ p ∈ r.paths,
        ∃ nm, p = joinPath logsDir (shorten (randString (env.seedsFor nm)) nm) ∧
          ∃ f, nm = pfx ++ f)) ∧
    GatedTrace (collectInstance env name instID pfx logsDir cmds).trace := by
  suffices hmain : ∀ out, collectInstance env name instID pfx logsDir cmds = out →
      (out.res = none ↔ env.stopped = true) ∧
      (∀ r, out.res = some r →
        r.mngName = name ∧
        (r.err.isSome = true → r.paths = []) ∧
        (env.newErr = none → env.connectErr = none → r.instanceID = instID) ∧
        (¬(env.newErr = none ∧ env.connectErr = none) →
          r.instanceID = [] ∧ r.err.isSome = true) ∧
        (∀ p ∈ r.paths,
          ∃ nm, p = joinPath logsDir (shorten (randString (env.seedsFor nm)) nm) ∧
            ∃ f, nm = pfx ++ f)) ∧
      GatedTrace out.trace by
    exact hmain _ rfl
  intro out heval
  cases hstop : env.stopped with
  | true =>
    simp only [collectInstance, hstop, if_true] at heval
    subst heval
    exact ⟨by simp, by simp, GatedTrace.nil⟩
  | false =>
    simp only [collectInstance, hstop, Bool.false_eq_true, if_false] at heval
    have hgate0 : GatedTrace (gateEvents (env.allowAt 0)) := by
      simpa using GatedTrace.gateOnly (env.allowAt 0) [] GatedTrace.nil
    rcases hnew : env.newErr with _ | e0
    · rcases hconn : env.connectErr with _ | e0
      · rcases hb1 : fetchFiles env logsDir pfx instID cmds 1 [] with ⟨k1, p1, t1⟩ | ⟨e1, t1⟩
        · rcases hlist : env.runOut listCmd with le | lo
          · simp only [hnew, hconn, hb1, hlist] at heval
            subst heval
            refine ⟨by simp [hstop], ?_, ?_⟩
            · intro r hr
              simp only [Option.some.injEq] at hr
              subst hr
              exact ⟨rfl, fun _ => rfl, fun _ _ => rfl,
                fun hno => absurd ⟨rfl, rfl⟩ hno, by simp⟩
            · simp only [List.append_assoc]
              refine GatedTrace.gateOnly _ _ ?_
              have hg := fetchFiles_gated env logsDir pfx instID cmds 1 []
                (gateEvents (env.allowAt k1) ++ [Ev.run listCmd])
                (GatedTrace.gateRun _ _ [] GatedTrace.nil)
              rw [hb1] at hg
              simpa [BatchRes.trace] using hg
          · rcases hb2 : fetchFiles env logsDir pfx instID (parseSvcUnits lo) (k1 + 1) p1
              with ⟨k2, p2, t2⟩ | ⟨e2, t2⟩
            · rcases heni : env.runOut eniCmd with ee | eo
              · simp only [hnew, hconn, hb1, hlist, hb2, heni] at heval
                subst heval
                refine ⟨by simp [hstop], ?_, ?_⟩
                · intro r hr
                  simp only [Option.some.injEq] at hr
                  subst hr
                  exact ⟨rfl, fun _ => rfl, fun _ _ => rfl,
                    fun hno => absurd ⟨rfl, rfl⟩ hno, by simp⟩
                · simp only [List.append_assoc, List.singleton_append]
                  refine GatedTrace.gateOnly _ _ ?_
                  have hg1 := fetchFiles_gated env logsDir pfx instID cmds 1 []
                    (gateEvents (env.allowAt k1) ++ Ev.run listCmd ::
                      (t2 ++ (gateEvents (env.allowAt k2) ++ [Ev.run eniCmd])))
                    (GatedTrace.gateRun _ _ _ ?tail1)
                  case tail1 =>
                    have hg2 := fetchFiles_gated env logsDir pfx instID
                      (parseSvcUnits lo) (k1 + 1) p1
                      (gateEvents (env.allowAt k2) ++ [Ev.run eniCmd])
                      (GatedTrace.gateRun _ _ [] GatedTrace.nil)
                    rw [hb2] at hg2
                    simpa [BatchRes.trace] using hg2
                  rw [hb1] at hg1
                  simpa [BatchRes.trace] using hg1
              · rcases hcr : env.createErr (joinPath logsDir
                    (shorten (randString (env.seedsFor (pfx ++ str "v1-enis")))
                      (pfx ++ str "v1-enis"))) with _ | ce
                · rcases hwr : env.writeErr (joinPath logsDir
                      (shorten (randString (env.seedsFor (pfx ++ str "v1-enis")))
                        (pfx ++ str "v1-enis"))) with _ | we
                  · rcases hfind : env.runOut findCmd with fe | fo
                    · simp only [hnew, hconn, hb1, hlist, hb2, heni, hcr, hwr, hfind] at heval
                      subst heval
                      refine ⟨by simp [hstop], ?_, ?_⟩
                      · intro r hr
                        simp only [Option.some.injEq] at hr
                        subst hr
                        exact ⟨rfl, fun _ => rfl, fun _ _ => rfl,
                          fun hno => absurd ⟨rfl, rfl⟩ hno, by simp⟩
                      · simp only [List.append_assoc, List.singleton_append]
                        refine GatedTrace.gateOnly _ _ ?_
                        have hg1 := fetchFiles_gated env logsDir pfx instID cmds 1 []
                          (gateEvents (env.allowAt k1) ++ Ev.run listCmd ::
                            (t2 ++ (gateEvents (env.allowAt k2) ++ Ev.run eniCmd ::
                              (gateEvents (env.allowAt (k2 + 1)) ++ [Ev.run findCmd]))))
                          (GatedTrace.gateRun _ _ _ ?tailA)
                        case tailA =>
                          have hg2 := fetchFiles_gated env logsDir pfx instID
                            (parseSvcUnits lo) (k1 + 1) p1
                            (gateEvents (env.allowAt k2) ++ Ev.run eniCmd ::
                              (gateEvents (env.allowAt (k2 + 1)) ++ [Ev.run findCmd]))
                            (GatedTrace.gateRun _ _ _
                              (GatedTrace.gateRun _ _ [] GatedTrace.nil))
                          rw [hb2] at hg2
                          simpa [BatchRes.trace] using hg2
                        rw [hb1] at hg1
                        simpa [BatchRes.trace] using hg1
                    · rcases hb3 : fetchFiles env logsDir pfx instID (parseVarLog fo)
                          (k2 + 2)
                          (p2 ++ [joinPath logsDir
                            (shorten (randString (env.seedsFor (pfx ++ str "v1-enis")))
                              (pfx ++ str "v1-enis"))])
                          with ⟨k3, p3, t3⟩ | ⟨e3, t3⟩
                      · simp only [hnew, hconn, hb1, hlist, hb2, heni, hcr, hwr, hfind,
                          hb3] at heval
                        subst heval
                        refine ⟨by simp [hstop], ?_, ?_⟩
                        · intro r hr
                          simp only [Option.some.injEq] at hr
                          subst hr
                          refine ⟨rfl, fun h => by simp at h, fun _ _ => rfl,
                            fun hno => absurd ⟨rfl, rfl⟩ hno, ?_⟩
                          intro p hp
                          rcases fetchFiles_ok_paths env logsDir pfx instID
                              (parseVarLog fo) (k2 + 2) _ k3 p3 t3 hb3 p hp with hmem | hsh
                          · rcases List.mem_append.mp hmem with hmem2 | hmem2
                            · rcases fetchFiles_ok_paths env logsDir pfx instID
                                  (parseSvcUnits lo) (k1 + 1) p1 k2 p2 t2 hb2 p hmem2
                                  with hmem1 | hsh
                              · rcases fetchFiles_ok_paths env logsDir pfx instID
                                    cmds 1 [] k1 p1 t1 hb1 p hmem1 with hnil | hsh
                                · simp at hnil
                                · exact hsh
                              · exact hsh
                            · have hpe : p = joinPath logsDir
                                  (shorten (randString (env.seedsFor (pfx ++ str "v1-enis")))
                                    (pfx ++ str "v1-enis")) := by
                                simpa using hmem2
                              exact ⟨pfx ++ str "v1-enis", by rw [hpe], str "v1-enis", rfl⟩
                          · exact hsh
                        · simp only [List.append_assoc, List.singleton_append]
                          refine GatedTrace.gateOnly _ _ ?_
                          have hg1 := fetchFiles_gated env logsDir pfx instID cmds 1 []
                            (gateEvents (env.allowAt k1) ++ Ev.run listCmd ::
                              (t2 ++ (gateEvents (env.allowAt k2) ++ Ev.run eniCmd ::
                                (gateEvents (env.allowAt (k2 + 1)) ++ Ev.run findCmd :: t3))))
                            (GatedTrace.gateRun _ _ _ ?tailB)
                          case tailB =>
                            have hg2 := fetchFiles_gated env logsDir pfx instID
                              (parseSvcUnits lo) (k1 + 1) p1
                              (gateEvents (env.allowAt k2) ++ Ev.run eniCmd ::
                                (gateEvents (env.allowAt (k2 + 1)) ++ Ev.run findCmd :: t3))
                              (GatedTrace.gateRun _ _ _ (GatedTrace.gateRun _ _ _ ?tailC))
                            case tailC =>
                              have hg3 := fetchFiles_gated env logsDir pfx instID
                                (parseVarLog fo) (k2 + 2)
                                (p2 ++ [joinPath logsDir
                                  (shorten (randString (env.seedsFor (pfx ++ str "v1-enis")))
                                    (pfx ++ str "v1-enis"))])
                                [] GatedTrace.nil
                              rw [hb3] at hg3
                              simpa [BatchRes.trace] using hg3
                            rw [hb2] at hg2
                            simpa [BatchRes.trace] using hg2
                          rw [hb1] at hg1
                          simpa [BatchRes.trace] using hg1
                      · simp only [hnew, hconn, hb1, hlist, hb2, heni, hcr, hwr, hfind,
                          hb3] at heval
                        subst heval
                        refine ⟨by simp [hstop], ?_, ?_⟩
                        · intro r hr
                          simp only [Option.some.injEq] at hr
                          subst hr
                          exact ⟨rfl, fun _ => rfl, fun _ _ => rfl,
                            fun hno => absurd ⟨rfl, rfl⟩ hno, by simp⟩
                        · simp only [List.append_assoc, List.singleton_append]
                          refine GatedTrace.gateOnly _ _ ?_
                          have hg1 := fetchFiles_gated env logsDir pfx instID cmds 1 []
                            (gateEvents (env.allowAt k1) ++ Ev.run listCmd ::
                              (t2 ++ (gateEvents (env.allowAt k2) ++ Ev.run eniCmd ::
                                (gateEvents (env.allowAt (k2 + 1)) ++ Ev.run findCmd :: t3))))
                            (GatedTrace.gateRun _ _ _ ?tailD)
                          case tailD =>
                            have hg2 := fetchFiles_gated env logsDir pfx instID
                              (parseSvcUnits lo) (k1 + 1) p1
                              (gateEvents (env.allowAt k2) ++ Ev.run eniCmd ::
                                (gateEvents (env.allowAt (k2 + 1)) ++ Ev.run findCmd :: t3))
                              (GatedTrace.gateRun _ _ _ (GatedTrace.gateRun _ _ _ ?tailE))
                            case tailE =>
                              have hg3 := fetchFiles_gated env logsDir pfx instID
                                (parseVarLog fo) (k2 + 2)
                                (p2 ++ [joinPath logsDir
                                  (shorten (randString (env.seedsFor (pfx ++ str "v1-enis")))
                                    (pfx ++ str "v1-enis"))])
                                [] GatedTrace.nil
                              rw [hb3] at hg3
                              simpa [BatchRes.trace] using hg3
                            rw [hb2] at hg2
                            simpa [BatchRes.trace] using hg2
                          rw [hb1] at hg1
                          simpa [BatchRes.trace] using hg1
                  · simp only [hnew, hconn, hb1, hlist, hb2, heni, hcr, hwr] at heval
                    subst heval
                    refine ⟨by simp [hstop], ?_, ?_⟩
                    · intro r hr
                      simp only [Option.some.injEq] at hr
                      subst hr
                      exact ⟨rfl, fun _ => rfl, fun _ _ => rfl,
                        fun hno => absurd ⟨rfl, rfl⟩ hno, by simp⟩
                    · simp only [List.append_assoc, List.singleton_append]
                      refine GatedTrace.gateOnly _ _ ?_
                      have hg1 := fetchFiles_gated env logsDir pfx instID cmds 1 []
                        (gateEvents (env.allowAt k1) ++ Ev.run listCmd ::
                          (t2 ++ (gateEvents (env.allowAt k2) ++ [Ev.run eniCmd])))
                        (GatedTrace.gateRun _ _ _ ?tailF)
                      case tailF =>
                        have hg2 := fetchFiles_gated env logsDir pfx instID
                          (parseSvcUnits lo) (k1 + 1) p1
                          (gateEvents (env.allowAt k2) ++ [Ev.run eniCmd])
                          (GatedTrace.gateRun _ _ [] GatedTrace.nil)
                        rw [hb2] at hg2
                        simpa [BatchRes.trace] using hg2
                      rw [hb1] at hg1
                      simpa [BatchRes.trace] using hg1
                · simp only [hnew, hconn, hb1, hlist, hb2, heni, hcr] at heval
                  subst heval
                  refine ⟨by simp [hstop], ?_, ?_⟩
                  · intro r hr
                    simp only [Option.some.injEq] at hr
                    subst hr
                    exact ⟨rfl, fun _ => rfl, fun _ _ => rfl,
                      fun hno => absurd ⟨rfl, rfl⟩ hno, by simp⟩
                  · simp only [List.append_assoc, List.singleton_append]
                    refine GatedTrace.gateOnly _ _ ?_
                    have hg1 := fetchFiles_gated env logsDir pfx instID cmds 1 []
                      (gateEvents (env.allowAt k1) ++ Ev.run listCmd ::
                        (t2 ++ (gateEvents (env.allowAt k2) ++ [Ev.run eniCmd])))
                      (GatedTrace.gateRun _ _ _ ?tailG)
                    case tailG =>
                      have hg2 := fetchFiles_gated env logsDir pfx instID
                        (parseSvcUnits lo) (k1 + 1) p1
                        (gateEvents (env.allowAt k2) ++ [Ev.run eniCmd])
                        (GatedTrace.gateRun _ _ [] GatedTrace.nil)
                      rw [hb2] at hg2
                      simpa [BatchRes.trace] using hg2
                    rw [hb1] at hg1
                    simpa [BatchRes.trace] using hg1
            · simp only [hnew, hconn, hb1, hlist, hb2] at heval
              subst heval
              refine ⟨by simp [hstop], ?_, ?_⟩
              · intro r hr
                simp only [Option.some.injEq] at hr
                subst hr
                exact ⟨rfl, fun _ => rfl, fun _ _ => rfl,
                  fun hno => absurd ⟨rfl, rfl⟩ hno, by simp⟩
              · simp only [List.append_assoc, List.singleton_append]
                refine GatedTrace.gateOnly _ _ ?_
                have hg1 := fetchFiles_gated env logsDir pfx instID cmds 1 []
                  (gateEvents (env.allowAt k1) ++ Ev.run listCmd :: t2)
                  (GatedTrace.gateRun _ _ _ ?tail2)
                case tail2 =>
                  have hg2 := fetchFiles_gated env logsDir pfx instID
                    (parseSvcUnits lo) (k1 + 1) p1 [] GatedTrace.nil
                  rw [hb2] at hg2
                  simpa [BatchRes.trace] using hg2
                rw [hb1] at hg1
                simpa [BatchRes.trace] using hg1
        · simp only [hnew, hconn, hb1] at heval
          subst heval
          refine ⟨by simp [hstop], ?_, ?_⟩
          · intro r hr
            simp only [Option.some.injEq] at hr
            subst hr
            exact ⟨rfl, fun _ => rfl, fun _ _ => rfl,
              fun hno => absurd ⟨rfl, rfl⟩ hno, by simp⟩
          · refine GatedTrace.gateOnly _ _ ?_
            have hg := fetchFiles_gated env logsDir pfx instID cmds 1 [] [] GatedTrace.nil
            rw [hb1] at hg
            simpa [BatchRes.trace] using hg
      · simp only [hnew, hconn] at heval
        subst heval
        refine ⟨by simp [hstop], ?_, hgate0⟩
        intro r hr
        simp only [Option.some.injEq] at hr
        subst hr
        refine ⟨rfl, fun _ => rfl, fun _ hc => Option.noConfusion hc,
          fun _ => ⟨rfl, rfl⟩, by simp⟩
    · simp only [hnew] at heval
      subst heval
      refine ⟨by simp [hstop], ?_, hgate0⟩
      intro r hr
      simp only [Option.some.injEq] at hr
      subst hr
      refine ⟨rfl, fun _ => rfl, fun hn _ => Option.noConfusion hn,
        fun _ => ⟨rfl, rfl⟩, by simp⟩

/-- Claim C6 (amended): for every instance whose collector starts before
the cancellation signal is observed, exactly one result record is produced
per run; it always carries the group name, and it carries the instance ID
except when SSH session creation or the connect step failed, in which case
the record carries an empty instance ID (and an error). -/
theorem claim_C6 (env : Env) (name instID pfx logsDir : Str)
    (cmds : List (Str × Str)) (h : env.stopped = false) :
    ∃ r, (collectInstance env name instID pfx logsDir cmds).res = some r ∧
      r.mngName = name ∧
      (env.newErr = none → env.connectErr = none → r.instanceID = instID) ∧
      (¬(env.newErr = none ∧ env.connectErr = none) → r.instanceID = []) := by
  obtain ⟨hiff, hrec, _⟩ := collect_spec env name instID pfx logsDir cmds
  rcases hres : (collectInstance env name instID pfx logsDir cmds).res with _ | r
  · exact absurd (hiff.mp hres) (by simp [h])
  · obtain ⟨h1, _, h3, h4, _⟩ := hrec r hres
    exact ⟨r, rfl, h1, h3, fun hno => (h4 hno).1⟩

/-- Claim C6, counterexample to the claim as stated: when the connect step
fails, the emitted result record does not carry the instance's ID — its
instance-ID field is the empty string, although the instance's ID is
nonempty. -/
theorem claim_C6_counterexample :
    (collectInstance envConnFail (str "g") (str "i-1") (str "p-") (str "/d") []).res =
      some { mngName := str "g", instanceID := [], paths := [],
             err := some (str "boom") } ∧
    (str "i-1" : Str) ≠ [] := ⟨rfl, by decide⟩

/-- Claim C6, witness: the amended theorem applied to a concrete
environment in which everything succeeds. -/
theorem claim_C6_witness :
    ∃ r, (collectInstance envOK (str "g") (str "i-1") (str "p-") (str "/d") []).res =
        some r ∧
      r.mngName = str "g" ∧
      (envOK.newErr = none → envOK.connectErr = none → r.instanceID = str "i-1") ∧
      (¬(envOK.newErr = none ∧ envOK.connectErr = none) → r.instanceID = []) :=
  claim_C6 envOK (str "g") (str "i-1") (str "p-") (str "/d") [] rfl

/-- Claim C7: every result record carrying an error carries an empty file
list — a connect failure or any command/create/write failure at any stage
aborts the instance and emits an error record with no partial path list,
even when earlier stages had already produced files. -/
theorem claim_C7 (env : Env) (name instID pfx logsDir : Str)
    (cmds : List (Str × Str)) (r : InstanceLogs)
    (hr : (collectInstance env name instID pfx logsDir cmds).res = some r)
    (he : r.err.isSome = true) : r.paths = [] :=
  (((collect_spec env name instID pfx logsDir cmds).2.1 r hr).2.1) he

/-- Claim C7, witness: in an environment where every remote command fails,
the static batch already aborts the instance; the emitted record carries
the error and an empty path list. -/
theorem claim_C7_witness :
    ({ mngName := str "g", instanceID := str "i-1", paths := [],
       err := some (runErrMsg (str "sudo journalctl --no-pager --output=short-precise -k")
         (str "i-1") (str "cmderr")) } : InstanceLogs).paths = [] :=
  claim_C7 envCmdFail (str "g") (str "i-1") (str "p-") (str "/d") logCmds _ rfl rfl

/-- Claim C8: with the per-instance prefix built from the instance ID and
the sanitized public DNS name, every file path the collector produces lies
in the run directory under a name that starts with that prefix (the prefix
never exceeding the truncation bound of the filename-safety transform). -/
theorem claim_C8 (env : Env) (name instID dns logsDir : Str)
    (cmds : List (Str × Str)) (r : InstanceLogs)
    (hr : (collectInstance env name instID (mkPfx instID dns) logsDir cmds).res = some r)
    (hlen : (mkPfx instID dns).length ≤ 230) :
    ∀ p ∈ r.paths, ∃ nm, p = joinPath logsDir nm ∧ mkPfx instID dns <+: nm := by
  intro p hp
  obtain ⟨-, -, -, -, h5⟩ :=
    (collect_spec env name instID (mkPfx instID dns) logsDir cmds).2.1 r hr
  obtain ⟨nm, hpnm, f, hnm⟩ := h5 p hp
  subst hnm
  exact ⟨shorten (randString (env.seedsFor (mkPfx instID dns ++ f)))
    (mkPfx instID dns ++ f), hpnm, shorten_keeps_pfx _ _ _ hlen⟩

/-- Claim C8, witness: the concrete all-success environment with an empty
static batch produces exactly the ENI file, whose name carries the
prefix. -/
theorem claim_C8_witness :
    (mkPfx (str "i-1") (str "")).length ≤ 230 ∧
    ∀ p ∈ ({ mngName := str "g", instanceID := str "i-1",
             paths := [joinPath (str "/d") (str "i-1--v1-enis")] } : InstanceLogs).paths,
      ∃ nm, p = joinPath (str "/d") nm ∧ mkPfx (str "i-1") (str "") <+: nm :=
  ⟨by decide,
   claim_C8 envOK (str "g") (str "i-1") (str "") (str "/d") [] _ rfl (by decide)⟩

/-- Claim C9: in every collector execution, each remote command issuance is
immediately preceded by a non-blocking `Allow` probe of the shared rate
limiter, or by the blocking `Wait` that immediately follows a failed
`Allow` probe — no command is ever issued without this gate. -/
theorem claim_C9 (env : Env) (name instID pfx logsDir : Str)
    (cmds : List (Str × Str)) :
    wellGated (collectInstance env name instID pfx logsDir cmds).trace = true :=
  gatedTrace_check (collect_spec env name instID pfx logsDir cmds).2.2 none none
